import Mathlib

/-!
Verification of the content-persistence and access-gate logic of the
poetry-cms repository (a React CMS over Firebase/GitHub storage backends).

Each definition below is a shallow embedding of a function or component of
the TypeScript source; the theorems settle the specification's claims about
them.  The main sources are `src/hooks/useFirebaseDB.ts` (content repository
facade), `src/components/Login.tsx` (lockout state machine), and the
`useAuth` hook (access gate).
-/

namespace PoetryCMS

/-- The `ContentType` enum of `src/types/index.ts`
(`Story`, `Poetry`, `Quote`). -/
inductive ContentType where
  | story
  | poem
  | quote
deriving DecidableEq, Repr

/-- The `ContentItem` record of `src/types/index.ts`:
`{id: string, type, title?, body, excerpt?, date?}`.
Optional fields are `Option`. -/
structure ContentItem where
  id : String
  type : ContentType
  title : Option String := none
  body : String := ""
  excerpt : Option String := none
  date : Option String := none
deriving DecidableEq, Repr

/-- The `SiteSettings` record of `src/types/index.ts`. -/
structure SiteSettings where
  siteTitle : String
  siteDescription : String
  authorName : String
  authorBio : String
  authorRoles : List String
deriving DecidableEq, Repr

/-- `DEFAULT_CONTENT` of `useFirebaseDB.ts` (lines 16-30): the hard-coded
fallback items, ids `"1"` and `"2"`. -/
def DEFAULT_CONTENT : List ContentItem :=
  [ { id := "1"
      type := ContentType.quote
      body := "If you look at what you have in life, you\x27ll always have more. If you look at what you don\x27t have in life, you\x27ll never have enough." },
    { id := "2"
      type := ContentType.story
      title := some "This Beginning May Have Always Meant This End"
      excerpt := some "Coming from a place where we meandered mornings and met quail, scrub jay, mockingbird..."
      body := "Coming from a place where we meandered mornings and met quail, scrub jay, mockingbird, i knew coyote, like everyone else..."
      date := some "Oct 24, 2023" } ]

/-- `DEFAULT_SETTINGS` of `useFirebaseDB.ts` (lines 32-38). -/
def DEFAULT_SETTINGS : SiteSettings :=
  { siteTitle := "Digital Silence"
    siteDescription := "A collection of stories, poetry, and moments crafted in the void."
    authorName := "Jacopo"
    authorBio := "Obsessed with the silence between words and the shadows cast by the noon sun."
    authorRoles := ["Author", "Curator", "Dreamer"] }

/-! ## The ordering ledger and the sort of `fetchContent`

`fetchContent` (useFirebaseDB.ts lines 88-96) builds
`orderMap = new Map(contentOrder.map((id, index) => [id, index]))` and sorts
the loaded items with the comparator
`(orderMap.get(a.id) ?? Infinity) - (orderMap.get(b.id) ?? Infinity)`. -/

/-- Embeds `new Map(contentOrder.map((id, index) => [id, index])).get(id)`.
A JS `Map` keeps, for each key, the value of the *last* pair inserted, so a
duplicated id maps to the index of its last occurrence; an absent id gives
`undefined`, here `none`.  The recursion returns the index (counted from the
head of `order`) of the last occurrence of `id`. -/
def orderMapGet : List String → String → Option Nat
  | [], _ => none
  | s :: rest, id =>
      match orderMapGet rest id with
      | some w => some (w + 1)
      | none => if s = id then some 0 else none

/-- Strict comparison of two ledger positions, with `none` playing the role
of `Infinity`: the comparator `keyA - keyB` of the source is negative exactly
when `oLt keyA keyB`.  `Infinity - Infinity` is `NaN`, which the ECMAScript
sort algorithm treats as `0` (not less), hence `oLt none none = false`. -/
def oLt : Option Nat → Option Nat → Bool
  | none, _ => false
  | some _, none => true
  | some x, some y => decide (x < y)

/-- The sort key of an item: `orderMap.get(a.id) ?? Infinity`. -/
def itemKey (order : List String) (a : ContentItem) : Option Nat :=
  orderMapGet order a.id

/-- Stable insertion of `x` into an already-sorted list: `x` passes `y`
exactly when `y`'s key is strictly smaller, so `x` lands before every element
whose key ties with or exceeds its own. -/
def insertOrdered (order : List String) (x : ContentItem) :
    List ContentItem → List ContentItem
  | [] => [x]
  | y :: ys =>
      if oLt (itemKey order y) (itemKey order x) then
        y :: insertOrdered order x ys
      else x :: y :: ys

/-- Stable sort of the loaded items by ledger position.  ECMAScript requires
`Array.prototype.sort` to be stable, and the comparator above is consistent
(it is induced by the key `itemKey`), so the source's
`loadedContent.sort(...)` computes exactly the stable sort by that key, which
this insertion sort implements. -/
def sortLoaded (order : List String) : List ContentItem → List ContentItem
  | [] => []
  | x :: xs => insertOrdered order x (sortLoaded order xs)

/-- The whole sorting step of `fetchContent` (lines 89-96): the sort only
runs under the guard `if (contentOrder.length > 0)`. -/
def sortByOrder (order : List String) (items : List ContentItem) :
    List ContentItem :=
  if 0 < order.length then sortLoaded order items else items

example :
    (sortByOrder ["3", "1"]
      [{ id := "1", type := ContentType.quote },
       { id := "2", type := ContentType.quote },
       { id := "3", type := ContentType.quote }]).map ContentItem.id
      = ["3", "1", "2"] := by decide

/-! ### Basic facts about the comparison `oLt` -/

lemma oLt_asymm {a b : Option Nat} (h : oLt a b = true) : oLt b a = false := by
  cases a <;> cases b <;> simp_all [oLt] <;> omega

lemma oLt_false_trans {a b c : Option Nat} (h1 : oLt b a = false)
    (h2 : oLt c b = false) : oLt c a = false := by
  cases a <;> cases b <;> cases c <;> simp_all [oLt] <;> omega

lemma oLt_none_right {a : Option Nat} (h : a.isSome) : oLt a none = true := by
  cases a <;> simp_all [oLt]

lemma oLt_map_succ (a b : Option Nat) :
    oLt (a.map (· + 1)) (b.map (· + 1)) = oLt a b := by
  cases a <;> cases b <;> simp [oLt]

/-! ### Permutation and sortedness of the stable insertion sort -/

lemma insertOrdered_perm (order : List String) (x : ContentItem)
    (l : List ContentItem) : (insertOrdered order x l).Perm (x :: l) := by
  induction l with
  | nil => exact List.Perm.refl _
  | cons y ys ih =>
    rw [insertOrdered]
    by_cases h : oLt (itemKey order y) (itemKey order x) = true
    · rw [if_pos h]
      exact (ih.cons y).trans (List.Perm.swap x y ys)
    · rw [if_neg h]

lemma mem_insertOrdered {order : List String} {x a : ContentItem}
    {l : List ContentItem} :
    a ∈ insertOrdered order x l ↔ a = x ∨ a ∈ l := by
  rw [(insertOrdered_perm order x l).mem_iff, List.mem_cons]

lemma sortLoaded_perm (order : List String) (l : List ContentItem) :
    (sortLoaded order l).Perm l := by
  induction l with
  | nil => exact List.Perm.refl _
  | cons x xs ih =>
    exact (insertOrdered_perm order x (sortLoaded order xs)).trans (ih.cons x)

lemma mem_sortLoaded {order : List String} {a : ContentItem}
    {l : List ContentItem} : a ∈ sortLoaded order l ↔ a ∈ l :=
  (sortLoaded_perm order l).mem_iff

lemma pairwise_insertOrdered {order : List String} (x : ContentItem)
    {l : List ContentItem}
    (h : l.Pairwise fun a b => oLt (itemKey order b) (itemKey order a) = false) :
    (insertOrdered order x l).Pairwise
      fun a b => oLt (itemKey order b) (itemKey order a) = false := by
  induction l with
  | nil => simp [insertOrdered]
  | cons y ys ih =>
    rw [List.pairwise_cons] at h
    obtain ⟨h1, h2⟩ := h
    rw [insertOrdered]
    by_cases hlt : oLt (itemKey order y) (itemKey order x) = true
    · rw [if_pos hlt, List.pairwise_cons]
      refine ⟨fun b hb => ?_, ih h2⟩
      rcases mem_insertOrdered.mp hb with rfl | hb
      · exact oLt_asymm hlt
      · exact h1 b hb
    · rw [if_neg hlt, List.pairwise_cons]
      rw [Bool.not_eq_true] at hlt
      refine ⟨fun b hb => ?_, List.pairwise_cons.mpr ⟨h1, h2⟩⟩
      rcases List.mem_cons.mp hb with rfl | hb
      · exact hlt
      · exact oLt_false_trans hlt (h1 b hb)

lemma pairwise_sortLoaded (order : List String) (l : List ContentItem) :
    (sortLoaded order l).Pairwise
      fun a b => oLt (itemKey order b) (itemKey order a) = false := by
  induction l with
  | nil => simp [sortLoaded]
  | cons x xs ih => exact pairwise_insertOrdered x ih

/-! ### Stability: the sorted list splits into ledger items then the rest -/

lemma insertOrdered_append_left {order : List String} {x : ContentItem}
    (A : List ContentItem) {B : List ContentItem}
    (hB : ∀ b ∈ B, oLt (itemKey order b) (itemKey order x) = false) :
    insertOrdered order x (A ++ B) = insertOrdered order x A ++ B := by
  induction A with
  | nil =>
    cases B with
    | nil => rfl
    | cons b bs =>
      have hb : ¬ (oLt (itemKey order b) (itemKey order x) = true) := by
        simp [hB b (List.mem_cons_self b bs)]
      show insertOrdered order x (b :: bs) = [x] ++ (b :: bs)
      rw [insertOrdered, if_neg hb]
      rfl
  | cons y A' ih =>
    rw [List.cons_append, insertOrdered, insertOrdered]
    by_cases h : oLt (itemKey order y) (itemKey order x) = true
    · rw [if_pos h, if_pos h, ih, List.cons_append]
    · rw [if_neg h, if_neg h]
      rfl

lemma insertOrdered_append_right {order : List String} {x : ContentItem}
    (A : List ContentItem) {B : List ContentItem}
    (hA : ∀ a ∈ A, oLt (itemKey order a) (itemKey order x) = true) :
    insertOrdered order x (A ++ B) = A ++ insertOrdered order x B := by
  induction A with
  | nil => rfl
  | cons y A' ih =>
    rw [List.cons_append, insertOrdered]
    rw [if_pos (hA y (List.mem_cons_self y A'))]
    rw [ih fun a ha => hA a (List.mem_cons_of_mem y ha), List.cons_append]

lemma insertOrdered_all_none {order : List String} {x : ContentItem}
    {N : List ContentItem} (hx : itemKey order x = none)
    (hN : ∀ b ∈ N, itemKey order b = none) :
    insertOrdered order x N = x :: N := by
  cases N with
  | nil => rfl
  | cons b bs =>
    have hb : ¬ (oLt (itemKey order b) (itemKey order x) = true) := by
      rw [hx, hN b (List.mem_cons_self b bs)]
      simp [oLt]
    rw [insertOrdered, if_neg hb]

lemma sortLoaded_decomp (order : List String) (l : List ContentItem) :
    sortLoaded order l
      = sortLoaded order (l.filter fun a => (itemKey order a).isSome)
        ++ l.filter fun a => (itemKey order a).isNone := by
  induction l with
  | nil => rfl
  | cons x xs ih =>
    by_cases hx : (itemKey order x).isSome = true
    · have hx2 : ¬ ((itemKey order x).isNone = true) := by
        rw [Option.isSome_iff_ne_none] at hx
        simp [Option.isNone_iff_eq_none, hx]
      rw [List.filter_cons_of_pos (p := fun a => (itemKey order a).isSome) hx,
        List.filter_cons_of_neg (p := fun a => (itemKey order a).isNone) hx2]
      rw [sortLoaded, ih, sortLoaded]
      rw [insertOrdered_append_left]
      intro b hb
      rw [List.mem_filter] at hb
      have hbn : itemKey order b = none := Option.isNone_iff_eq_none.mp hb.2
      simp [oLt, hbn]
    · have hx' : itemKey order x = none := by
        rw [Option.isSome_iff_ne_none] at hx
        simpa using hx
      rw [List.filter_cons_of_neg (p := fun a => (itemKey order a).isSome) hx,
        List.filter_cons_of_pos (p := fun a => (itemKey order a).isNone)
          (by simp [Option.isNone_iff_eq_none, hx'])]
      rw [sortLoaded, ih]
      rw [insertOrdered_append_right]
      · rw [insertOrdered_all_none hx']
        intro b hb
        exact Option.isNone_iff_eq_none.mp (List.mem_filter.mp hb).2
      · intro a ha
        rw [mem_sortLoaded, List.mem_filter] at ha
        rw [hx']
        exact oLt_none_right ha.2

/-! ### Ledger entries whose id occurs in no item do not affect the sort -/

lemma orderMapGet_eq_none_iff (l : List String) (id : String) :
    orderMapGet l id = none ↔ id ∉ l := by
  induction l with
  | nil => simp [orderMapGet]
  | cons s rest ih =>
    rw [orderMapGet]
    cases h : orderMapGet rest id with
    | some w =>
      have : id ∈ rest := by
        by_contra hmem
        rw [ih.mpr hmem] at h
        exact Option.noConfusion h
      simp [this]
    | none =>
      have hmem : id ∉ rest := ih.mp h
      by_cases hs : s = id
      · simp [hs]
      · have hs2 : ¬ id = s := fun hh => hs hh.symm
        simp [hs, hmem, hs2]

lemma orderMapGet_isSome_congr {A B : List String} {id : String}
    (h : id ∈ A ↔ id ∈ B) :
    (orderMapGet A id).isSome = (orderMapGet B id).isSome := by
  cases hA1 : orderMapGet A id with
  | none =>
    have hnB : id ∉ B := fun hm =>
      (orderMapGet_eq_none_iff A id).mp hA1 (h.mpr hm)
    rw [(orderMapGet_eq_none_iff B id).mpr hnB]
  | some w =>
    have hiA : id ∈ A := by
      by_contra hm
      rw [(orderMapGet_eq_none_iff A id).mpr hm] at hA1
      exact Option.noConfusion hA1
    cases hB1 : orderMapGet B id with
    | some v => rfl
    | none => exact absurd ((orderMapGet_eq_none_iff B id).mp hB1) (by
        simp [h.mp hiA])

lemma orderMapGet_cons_ne {s id : String} (l : List String) (h : s ≠ id) :
    orderMapGet (s :: l) id = (orderMapGet l id).map (· + 1) := by
  rw [orderMapGet]
  cases orderMapGet l id with
  | some w => rfl
  | none => simp [h]

lemma oLt_orderMapGet_cons (s : String) {A B : List String} {i j : String}
    (hi : (orderMapGet A i).isSome = (orderMapGet B i).isSome)
    (hj : (orderMapGet A j).isSome = (orderMapGet B j).isSome)
    (hij : oLt (orderMapGet A i) (orderMapGet A j)
      = oLt (orderMapGet B i) (orderMapGet B j)) :
    oLt (orderMapGet (s :: A) i) (orderMapGet (s :: A) j)
      = oLt (orderMapGet (s :: B) i) (orderMapGet (s :: B) j) := by
  rw [orderMapGet, orderMapGet, orderMapGet, orderMapGet]
  rcases hAi : orderMapGet A i with _ | wa <;>
    rcases hBi : orderMapGet B i with _ | wb <;>
    rcases hAj : orderMapGet A j with _ | va <;>
    rcases hBj : orderMapGet B j with _ | vb <;>
    first
      | (simp_all [oLt]; done)
      | (simp_all [oLt]; omega)
      | (by_cases hsi : s = i <;> by_cases hsj : s = j <;>
          simp_all [oLt] <;> omega)

lemma orderMapGet_filter_oLt (p : String → Bool) (l : List String) :
    ∀ i j : String, p i = true → p j = true →
    oLt (orderMapGet (l.filter p) i) (orderMapGet (l.filter p) j)
      = oLt (orderMapGet l i) (orderMapGet l j) := by
  induction l with
  | nil => intro i j _ _; rfl
  | cons s rest ih =>
    intro i j hi hj
    by_cases hps : p s = true
    · rw [List.filter_cons_of_pos hps]
      have mem_i : i ∈ rest.filter p ↔ i ∈ rest := by
        simp [List.mem_filter, hi]
      have mem_j : j ∈ rest.filter p ↔ j ∈ rest := by
        simp [List.mem_filter, hj]
      exact oLt_orderMapGet_cons s (orderMapGet_isSome_congr mem_i)
        (orderMapGet_isSome_congr mem_j) (ih i j hi hj)
    · rw [List.filter_cons_of_neg hps]
      have hsi : s ≠ i := fun h => hps (h ▸ hi)
      have hsj : s ≠ j := fun h => hps (h ▸ hj)
      rw [orderMapGet_cons_ne rest hsi, orderMapGet_cons_ne rest hsj,
        oLt_map_succ]
      exact ih i j hi hj

/-! ### The sort depends only on the comparisons between item keys -/

lemma insertOrdered_congr {o1 o2 : List String} (x : ContentItem)
    {l : List ContentItem}
    (h : ∀ y ∈ l, oLt (itemKey o1 y) (itemKey o1 x)
      = oLt (itemKey o2 y) (itemKey o2 x)) :
    insertOrdered o1 x l = insertOrdered o2 x l := by
  induction l with
  | nil => rfl
  | cons y ys ih =>
    rw [insertOrdered, insertOrdered, h y (List.mem_cons_self y ys)]
    by_cases hc : oLt (itemKey o2 y) (itemKey o2 x) = true
    · rw [if_pos hc, if_pos hc, ih fun a ha => h a (List.mem_cons_of_mem y ha)]
    · rw [if_neg hc, if_neg hc]

lemma sortLoaded_congr {o1 o2 : List String} {l : List ContentItem}
    (h : ∀ a ∈ l, ∀ b ∈ l, oLt (itemKey o1 a) (itemKey o1 b)
      = oLt (itemKey o2 a) (itemKey o2 b)) :
    sortLoaded o1 l = sortLoaded o2 l := by
  induction l with
  | nil => rfl
  | cons x xs ih =>
    rw [sortLoaded, sortLoaded]
    rw [ih fun a ha b hb =>
      h a (List.mem_cons_of_mem x ha) b (List.mem_cons_of_mem x hb)]
    exact insertOrdered_congr x fun y hy =>
      h y (List.mem_cons_of_mem x (mem_sortLoaded.mp hy))
        x (List.mem_cons_self x xs)

lemma sortLoaded_of_forall_none {order : List String} {l : List ContentItem}
    (h : ∀ a ∈ l, itemKey order a = none) : sortLoaded order l = l := by
  induction l with
  | nil => rfl
  | cons x xs ih =>
    rw [sortLoaded, ih fun a ha => h a (List.mem_cons_of_mem x ha)]
    exact insertOrdered_all_none (h x (List.mem_cons_self x xs))
      fun b hb => h b (List.mem_cons_of_mem x hb)

lemma sortByOrder_filter_invariant (order : List String)
    (items : List ContentItem) :
    sortByOrder order items
      = sortByOrder (order.filter fun s => items.any fun a => a.id == s)
          items := by
  by_cases h0 : 0 < order.length
  · rw [sortByOrder, if_pos h0, sortByOrder]
    by_cases hF : 0 < (order.filter fun s => items.any fun a => a.id == s).length
    · rw [if_pos hF]
      refine sortLoaded_congr fun a ha b hb => ?_
      have pa : (items.any fun x => x.id == a.id) = true :=
        List.any_eq_true.mpr ⟨a, ha, beq_self_eq_true a.id⟩
      have pb : (items.any fun x => x.id == b.id) = true :=
        List.any_eq_true.mpr ⟨b, hb, beq_self_eq_true b.id⟩
      exact (orderMapGet_filter_oLt _ order a.id b.id pa pb).symm
    · rw [if_neg hF]
      have hnil : (order.filter fun s => items.any fun a => a.id == s) = [] := by
        cases hh : order.filter fun s => items.any fun a => a.id == s with
        | nil => rfl
        | cons c cs => rw [hh] at hF; exact absurd (by simp) hF
      refine sortLoaded_of_forall_none fun a ha => ?_
      rw [itemKey, orderMapGet_eq_none_iff]
      intro hmem
      have : a.id ∈ order.filter fun s => items.any fun x => x.id == s := by
        rw [List.mem_filter]
        exact ⟨hmem, List.any_eq_true.mpr ⟨a, ha, beq_self_eq_true a.id⟩⟩
      rw [hnil] at this
      exact List.not_mem_nil a.id this
  · have : order = [] := List.length_eq_zero.mp (by omega)
    subst this
    rfl

lemma pairwise_of_trivial {R : ContentItem → ContentItem → Prop}
    (h : ∀ a b, R a b) : ∀ l : List ContentItem, l.Pairwise R := by
  intro l
  induction l with
  | nil => exact List.Pairwise.nil
  | cons x xs ih => exact List.Pairwise.cons (fun b _ => h x b) ih

/-- C1: the sorting step of `fetchContent` orders the loaded items by the
position of their id in the ledger: the result is a permutation of the
items that is pairwise sorted by ledger key; ledger ids that occur in no
item have no effect on the result; items whose id is absent from the ledger
come after all ledger-ordered items and keep their arrival order among
themselves (the trailing `filter`); and for items with ids "1", "2", "3" in
that arrival order and ledger `["3", "1"]` the resulting id order is
`["3", "1", "2"]`. -/
theorem fetchContent_sort_spec (order : List String)
    (items : List ContentItem) :
    (sortByOrder order items).Perm items
    ∧ (sortByOrder order items).Pairwise
        (fun a b => oLt (itemKey order b) (itemKey order a) = false)
    ∧ sortByOrder order items
        = sortByOrder (order.filter fun s => items.any fun a => a.id == s)
            items
    ∧ sortByOrder order items
        = sortLoaded order (items.filter fun a => (itemKey order a).isSome)
          ++ (items.filter fun a => (itemKey order a).isNone)
    ∧ (∀ a b c : ContentItem, a.id = "1" → b.id = "2" → c.id = "3" →
        (sortByOrder ["3", "1"] [a, b, c]).map ContentItem.id
          = ["3", "1", "2"]) := by
  refine ⟨?_, ?_, sortByOrder_filter_invariant order items, ?_, ?_⟩
  · by_cases h0 : 0 < order.length
    · rw [sortByOrder, if_pos h0]
      exact sortLoaded_perm order items
    · rw [sortByOrder, if_neg h0]
  · by_cases h0 : 0 < order.length
    · rw [sortByOrder, if_pos h0]
      exact pairwise_sortLoaded order items
    · rw [sortByOrder, if_neg h0]
      have : order = [] := List.length_eq_zero.mp (by omega)
      subst this
      exact pairwise_of_trivial (fun a b => rfl) items
  · by_cases h0 : 0 < order.length
    · rw [sortByOrder, if_pos h0]
      exact sortLoaded_decomp order items
    · have : order = [] := List.length_eq_zero.mp (by omega)
      subst this
      have hk : ∀ a : ContentItem, itemKey ([] : List String) a = none :=
        fun a => rfl
      simp [sortByOrder, hk, sortLoaded]
  · intro a b c ha hb hc
    have k1 : itemKey ["3", "1"] a = some 1 := by
      rw [itemKey, ha]
      decide
    have k2 : itemKey ["3", "1"] b = none := by
      rw [itemKey, hb]
      decide
    have k3 : itemKey ["3", "1"] c = some 0 := by
      rw [itemKey, hc]
      decide
    have hg : sortByOrder ["3", "1"] [a, b, c]
        = sortLoaded ["3", "1"] [a, b, c] := by
      rw [sortByOrder, if_pos (by simp)]
    rw [hg]
    simp only [sortLoaded, insertOrdered, k1, k2, k3, oLt]
    norm_num
    simp [ha, hb, hc]

/-- Concrete instance of the C1 example with three explicit quote items. -/
theorem fetchContent_sort_spec_witness :
    (sortByOrder ["3", "1"]
      [{ id := "1", type := ContentType.quote },
       { id := "2", type := ContentType.quote },
       { id := "3", type := ContentType.quote }]).map ContentItem.id
      = ["3", "1", "2"] :=
  (fetchContent_sort_spec [] []).2.2.2.2
    { id := "1", type := ContentType.quote }
    { id := "2", type := ContentType.quote }
    { id := "3", type := ContentType.quote } rfl rfl rfl

/-! ## The optimistic local updates of `saveItem` and `deleteItem`

`saveItem` (useFirebaseDB.ts lines 182-186) updates the in-memory list with
`const exists = prev.find(i => i.id === item.id); if (exists) return
prev.map(i => i.id === item.id ? item : i); return [item, ...prev]`, and
`deleteItem` (line 214) with `prev.filter(i => i.id !== id)`.  The
`useGitHubDB` variants (lines 602-612 and 643-647) compute the same lists. -/

/-- The optimistic in-memory update of `saveItem`: replace every element
whose id equals `item.id`, or prepend when no element matches (`find`
yields a hit exactly when `any` does). -/
def saveItemLocal (item : ContentItem) (prev : List ContentItem) :
    List ContentItem :=
  if prev.any fun i => i.id == item.id then
    prev.map fun i => if i.id == item.id then item else i
  else item :: prev

/-- The optimistic in-memory update of `deleteItem`:
`prev.filter(i => i.id !== id)`. -/
def deleteItemLocal (id : String) (prev : List ContentItem) :
    List ContentItem :=
  prev.filter fun i => !(i.id == id)

/-- The ledger update of `deleteItem` (useFirebaseDB.ts line 224):
`currentOrder.filter(itemId => itemId !== id)`. -/
def deleteFromOrder (id : String) (currentOrder : List String) :
    List String :=
  currentOrder.filter fun itemId => !(itemId == id)

lemma map_replace_eq_set (item : ContentItem) :
    ∀ (prev : List ContentItem) (j : Nat) (hj : j < prev.length),
    (prev.map ContentItem.id).Nodup →
    (prev.get ⟨j, hj⟩).id = item.id →
    (prev.map fun i => if i.id == item.id then item else i)
      = prev.set j item := by
  intro prev
  induction prev with
  | nil => intro j hj _ _; exact absurd hj (by simp)
  | cons x rest ih =>
    intro j hj hnd hid
    rw [List.map_cons, List.nodup_cons] at hnd
    cases j with
    | zero =>
      have hx : x.id = item.id := hid
      rw [List.map_cons, if_pos (by simp [hx]), List.set_cons_zero]
      congr 1
      have hrest : ∀ i ∈ rest, i.id ≠ item.id := by
        intro i hi he
        exact hnd.1 (hx ▸ he ▸ List.mem_map_of_mem ContentItem.id hi)
      calc rest.map (fun i => if i.id == item.id then item else i)
          = rest.map id := List.map_congr_left fun i hi => by
            simp [hrest i hi]
        _ = rest := List.map_id rest
    | succ k =>
      have hk : k < rest.length := by simpa using hj
      have hid' : (rest.get ⟨k, hk⟩).id = item.id := hid
      have hx : x.id ≠ item.id := by
        intro he
        exact hnd.1 (he ▸ hid' ▸
          List.mem_map_of_mem ContentItem.id (rest.get_mem k hk))
      rw [List.map_cons, if_neg (by simp [hx]), List.set_cons_succ]
      congr 1
      exact ih k hk hnd.2 hid'

/-- C2: saving an item whose id already occurs (lists obey the data model's
id-uniqueness) replaces that element in place — the result is `prev.set j
item` at the matching position `j`, with the length unchanged — while saving
an item with a fresh id prepends it, growing the length by one. -/
theorem saveItem_local_spec (item : ContentItem) (prev : List ContentItem)
    (hnd : (prev.map ContentItem.id).Nodup) :
    (∀ (j : Nat) (hj : j < prev.length), (prev.get ⟨j, hj⟩).id = item.id →
        saveItemLocal item prev = prev.set j item
          ∧ (saveItemLocal item prev).length = prev.length)
    ∧ ((∀ i ∈ prev, i.id ≠ item.id) →
        saveItemLocal item prev = item :: prev
          ∧ (saveItemLocal item prev).length = prev.length + 1) := by
  constructor
  · intro j hj hid
    have hid2 : prev[j].id = item.id := hid
    have hany : (prev.any fun i => i.id == item.id) = true :=
      List.any_eq_true.mpr ⟨prev.get ⟨j, hj⟩, List.get_mem prev j hj,
        by simp [hid2]⟩
    have heq : saveItemLocal item prev = prev.set j item := by
      rw [saveItemLocal, if_pos hany]
      exact map_replace_eq_set item prev j hj hnd hid
    exact ⟨heq, by rw [heq, List.length_set]⟩
  · intro h
    have hany : ¬ ((prev.any fun i => i.id == item.id) = true) := by
      rw [List.any_eq_true]
      rintro ⟨i, hi, he⟩
      exact h i hi (by simpa using he)
    have heq : saveItemLocal item prev = item :: prev := by
      rw [saveItemLocal, if_neg hany]
    exact ⟨heq, by rw [heq, List.length_cons]⟩

/-- Concrete instance of C2: replacing id "2" in a two-item list, and
prepending a fresh id "9". -/
theorem saveItem_local_spec_witness :
    (saveItemLocal { id := "2", type := ContentType.story }
        [{ id := "1", type := ContentType.quote },
         { id := "2", type := ContentType.quote }]
      = [{ id := "1", type := ContentType.quote },
         { id := "2", type := ContentType.quote }].set 1
          { id := "2", type := ContentType.story })
    ∧ (saveItemLocal { id := "9", type := ContentType.poem }
        [{ id := "1", type := ContentType.quote },
         { id := "2", type := ContentType.quote }]
      = { id := "9", type := ContentType.poem } ::
        [{ id := "1", type := ContentType.quote },
         { id := "2", type := ContentType.quote }]) :=
  ⟨((saveItem_local_spec { id := "2", type := ContentType.story }
      [{ id := "1", type := ContentType.quote },
       { id := "2", type := ContentType.quote }] (by decide)).1 1
      (by decide) (by decide)).1,
   ((saveItem_local_spec { id := "9", type := ContentType.poem }
      [{ id := "1", type := ContentType.quote },
       { id := "2", type := ContentType.quote }] (by decide)).2
      (by decide)).1⟩

/-- C3: after `deleteItem` no item with the deleted id remains, the id is
gone from the ledger, and the surviving items and ledger entries are exactly
the ones with a different id, kept in their original relative order (both
results are sublists of the originals). -/
theorem deleteItem_local_spec (id : String) (items : List ContentItem)
    (order : List String) :
    (∀ i ∈ deleteItemLocal id items, i.id ≠ id)
    ∧ List.Sublist (deleteItemLocal id items) items
    ∧ (∀ i ∈ items, i.id ≠ id → i ∈ deleteItemLocal id items)
    ∧ id ∉ deleteFromOrder id order
    ∧ List.Sublist (deleteFromOrder id order) order
    ∧ (∀ s ∈ order, s ≠ id → s ∈ deleteFromOrder id order) := by
  refine ⟨?_, List.filter_sublist items, ?_, ?_, List.filter_sublist order, ?_⟩
  · intro i hi
    have := (List.mem_filter.mp hi).2
    simpa using this
  · intro i hi hne
    exact List.mem_filter.mpr ⟨hi, by simpa using hne⟩
  · intro hmem
    have := (List.mem_filter.mp hmem).2
    simp at this
  · intro s hs hne
    exact List.mem_filter.mpr ⟨hs, by simpa using hne⟩

/-- Concrete instance of C3: deleting id "2" keeps the other item and the
other ledger entry. -/
theorem deleteItem_local_spec_witness :
    ({ id := "1", type := ContentType.quote } ∈
        deleteItemLocal "2"
          [{ id := "1", type := ContentType.quote },
           { id := "2", type := ContentType.quote }])
    ∧ "3" ∈ deleteFromOrder "2" ["2", "3"] :=
  ⟨(deleteItem_local_spec "2"
      [{ id := "1", type := ContentType.quote },
       { id := "2", type := ContentType.quote }] ["2", "3"]).2.2.1
      { id := "1", type := ContentType.quote } (by decide) (by decide),
   (deleteItem_local_spec "2"
      [{ id := "1", type := ContentType.quote },
       { id := "2", type := ContentType.quote }] ["2", "3"]).2.2.2.2.2
      "3" (by decide) (by decide)⟩

/-- C10: id-uniqueness of the in-memory list is an invariant of the
optimistic updates: if no two items share an id, the same holds after any
`saveItem` (replacement keeps the id multiset unchanged; prepending adds an
id that was absent) and after any `deleteItem` (filtering). -/
theorem idUniqueness_invariant (item : ContentItem) (id : String)
    (items : List ContentItem) (hnd : (items.map ContentItem.id).Nodup) :
    ((saveItemLocal item items).map ContentItem.id).Nodup
    ∧ ((deleteItemLocal id items).map ContentItem.id).Nodup := by
  constructor
  · rw [saveItemLocal]
    by_cases hany : (items.any fun i => i.id == item.id) = true
    · rw [if_pos hany]
      have hmap : (items.map fun i => if i.id == item.id then item else i).map
          ContentItem.id = items.map ContentItem.id := by
        rw [List.map_map]
        refine List.map_congr_left fun i _ => ?_
        by_cases h : i.id = item.id <;> simp [Function.comp, h]
      rw [hmap]
      exact hnd
    · rw [if_neg hany, List.map_cons, List.nodup_cons]
      refine ⟨?_, hnd⟩
      intro hmem
      obtain ⟨i, hi, he⟩ := List.mem_map.mp hmem
      exact hany (List.any_eq_true.mpr ⟨i, hi, by simp [he]⟩)
  · exact hnd.sublist
      (List.Sublist.map ContentItem.id (List.filter_sublist items))

/-- Concrete instance of C10 on a two-item duplicate-free list. -/
theorem idUniqueness_invariant_witness :
    (((saveItemLocal { id := "2", type := ContentType.story }
        [{ id := "1", type := ContentType.quote },
         { id := "2", type := ContentType.quote }]).map
        ContentItem.id).Nodup)
    ∧ (((deleteItemLocal "1"
        [{ id := "1", type := ContentType.quote },
         { id := "2", type := ContentType.quote }]).map
        ContentItem.id).Nodup) :=
  idUniqueness_invariant { id := "2", type := ContentType.story } "1"
    [{ id := "1", type := ContentType.quote },
     { id := "2", type := ContentType.quote }] (by decide)

/-! ## The login lockout state machine (`src/components/Login.tsx`)

Component state: `attempts`, `isLocked`, `lockoutTimer`, `error`, with
`MAX_ATTEMPTS = 3` and `LOCKOUT_DURATION = 30`. -/

/-- The mutable state of the `Login` component. -/
structure LoginState where
  attempts : Nat
  isLocked : Bool
  lockoutTimer : Nat
  error : Bool
deriving DecidableEq, Repr

/-- `MAX_ATTEMPTS` of Login.tsx. -/
def MAX_ATTEMPTS : Nat := 3

/-- `LOCKOUT_DURATION` of Login.tsx (seconds). -/
def LOCKOUT_DURATION : Nat := 30

/-- The initial state of the component
(`useState(0)`, `useState(false)`, `useState(0)`, `useState(false)`). -/
def initialLoginState : LoginState :=
  { attempts := 0, isLocked := false, lockoutTimer := 0, error := false }

/-- `handleSubmit` (Login.tsx lines 29-49).  `checkResult` is the value of
`onLogin(password)`; when the component is locked the handler returns before
calling `onLogin`, so the state is unchanged whatever the credential is.  On
failure `attempts` becomes `attempts + 1` and, at `MAX_ATTEMPTS`, the lock
engages with a 30-second timer.  On success only the error flag is cleared —
the source does not reset `attempts`. -/
def handleSubmit (checkResult : Bool) (s : LoginState) : LoginState :=
  if s.isLocked then s
  else if checkResult then { s with error := false }
  else
    let nextAttempts := s.attempts + 1
    if MAX_ATTEMPTS ≤ nextAttempts then
      { s with
        attempts := nextAttempts
        error := true
        isLocked := true
        lockoutTimer := LOCKOUT_DURATION }
    else { s with attempts := nextAttempts, error := true }

/-- One tick of the interval installed by the lockout effect (Login.tsx
lines 16-27): while locked with a positive timer, the timer decrements once
per second. -/
def tickInterval (s : LoginState) : LoginState :=
  if s.isLocked ∧ 0 < s.lockoutTimer then
    { s with lockoutTimer := s.lockoutTimer - 1 }
  else s

/-- The release branch of the lockout effect (lines 22-25): when the timer
has reached zero while locked, the lock is dropped and `attempts` reset. -/
def lockoutEffect (s : LoginState) : LoginState :=
  if s.isLocked ∧ s.lockoutTimer = 0 then
    { s with isLocked := false, attempts := 0 }
  else s

/-- A submission event followed by the effect re-run it triggers. -/
def submitStep (checkResult : Bool) (s : LoginState) : LoginState :=
  lockoutEffect (handleSubmit checkResult s)

/-- One elapsed second followed by the effect re-run it triggers. -/
def secondStep (s : LoginState) : LoginState :=
  lockoutEffect (tickInterval s)

/-- C4 as stated is false on the code: a successful credential check does
not reset the consecutive-failure count (`handleSubmit` only clears the
error flag on success), so the submission sequence fail, success, fail,
fail — three non-consecutive failures — already locks the component. -/
theorem login_lockout_nonconsecutive_counterexample :
    (submitStep false (submitStep false (submitStep true
      (submitStep false initialLoginState)))).isLocked = true
    ∧ (submitStep true (submitStep false initialLoginState)).attempts
        = 1 := by
  decide

/-- C4 (amended): lockout triggers exactly on the 3rd failed credential
check since the last reset — a successful check does NOT reset the count —
while locked every submission leaves the state unchanged without the
credential being checked, and when the countdown reaches zero the lock is
released and the failure count reset to zero. -/
theorem login_lockout_spec (s : LoginState) (r : Bool) :
    (s.isLocked = true → handleSubmit r s = s)
    ∧ (s.isLocked = false → (handleSubmit true s).attempts = s.attempts
        ∧ (handleSubmit true s).isLocked = false)
    ∧ (s.isLocked = false → s.attempts + 1 < MAX_ATTEMPTS →
        (handleSubmit false s).attempts = s.attempts + 1
          ∧ (handleSubmit false s).isLocked = false)
    ∧ (s.isLocked = false → MAX_ATTEMPTS ≤ s.attempts + 1 →
        (handleSubmit false s).isLocked = true
          ∧ (handleSubmit false s).lockoutTimer = LOCKOUT_DURATION)
    ∧ (s.isLocked = true → s.lockoutTimer = 0 →
        (lockoutEffect s).isLocked = false ∧ (lockoutEffect s).attempts = 0)
    ∧ (s.isLocked = true → 0 < s.lockoutTimer →
        (tickInterval s).lockoutTimer = s.lockoutTimer - 1) := by
  refine ⟨?_, ?_, ?_, ?_, ?_, ?_⟩
  · intro h
    rw [handleSubmit, if_pos h]
  · intro h
    rw [handleSubmit, h]
    exact ⟨rfl, rfl⟩
  · intro h hlt
    rw [handleSubmit, h]
    simp only [Bool.false_eq_true, if_false]
    rw [if_neg (by omega)]
    exact ⟨rfl, rfl⟩
  · intro h hge
    rw [handleSubmit, h]
    simp only [Bool.false_eq_true, if_false]
    rw [if_pos hge]
    exact ⟨rfl, rfl⟩
  · intro h ht
    rw [lockoutEffect, if_pos ⟨h, ht⟩]
    exact ⟨rfl, rfl⟩
  · intro h ht
    rw [tickInterval, if_pos ⟨h, ht⟩]

/-- Concrete run of the amended C4: three straight failures lock exactly on
the third; a tick from 1 releases nothing until the effect sees zero, which
unlocks and resets. -/
theorem login_lockout_spec_witness :
    (handleSubmit false
        { attempts := 2, isLocked := false, lockoutTimer := 0,
          error := true }).isLocked = true
    ∧ (lockoutEffect
        { attempts := 3, isLocked := true, lockoutTimer := 0,
          error := true }).attempts = 0 :=
  ⟨((login_lockout_spec
      { attempts := 2, isLocked := false, lockoutTimer := 0, error := true }
      false).2.2.2.1 rfl (by decide)).1,
   ((login_lockout_spec
      { attempts := 3, isLocked := true, lockoutTimer := 0, error := true }
      false).2.2.2.2.1 rfl rfl).2⟩

/-! ## The access gate (`useAuth` hook)

`login` compares the submitted password with
`ADMIN_PASSWORD = import.meta.env.VITE_ADMIN_PASSWORD || 'jacopo'` and, on
success, sets state and the `sessionStorage` flag; `logout` clears both. -/

/-- The auth-relevant state: the React `isAuthenticated` flag and the
`sessionStorage('cms_authenticated')` flag. -/
structure AuthState where
  isAuthenticated : Bool
  sessionFlag : Bool
deriving DecidableEq, Repr

/-- `ADMIN_PASSWORD`: the configured env value, with JS `||` falling back to
`'jacopo'` when the variable is unset or the empty string (empty strings are
falsy). -/
def adminPassword (env : Option String) : String :=
  match env with
  | none => "jacopo"
  | some s => if s = "" then "jacopo" else s

/-- `login` of `useAuth`: compare, and on success set both flags; on
failure leave the state untouched.  Returns the comparison result. -/
def login (secret : String) (password : String) (s : AuthState) :
    AuthState × Bool :=
  if password = secret then
    ({ isAuthenticated := true, sessionFlag := true }, true)
  else (s, false)

/-- `logout` of `useAuth`: clear the state flag and remove the session
flag. -/
def logout (_s : AuthState) : AuthState :=
  { isAuthenticated := false, sessionFlag := false }

/-- C8: the access-gate check is a stateless equality comparison — `login`
returns `true` exactly when the submitted password equals the configured
secret, and the returned boolean does not depend on the prior state; on
success both the state flag and the session flag are set, and `logout`
clears both. -/
theorem login_gate_spec (secret password : String) (s t : AuthState) :
    ((login secret password s).2 = true ↔ password = secret)
    ∧ (login secret password s).2 = (login secret password t).2
    ∧ (password = secret →
        (login secret password s).1.isAuthenticated = true
          ∧ (login secret password s).1.sessionFlag = true)
    ∧ (logout s).isAuthenticated = false
    ∧ (logout s).sessionFlag = false := by
  refine ⟨?_, ?_, ?_, rfl, rfl⟩
  · constructor
    · intro h
      by_contra hne
      rw [login, if_neg hne] at h
      exact Bool.false_ne_true h
    · intro h
      rw [login, if_pos h]
  · by_cases h : password = secret
    · rw [login, if_pos h, login, if_pos h]
    · rw [login, if_neg h, login, if_neg h]
  · intro h
    rw [login, if_pos h]
    exact ⟨rfl, rfl⟩

/-- Concrete instance of C8 with the default secret. -/
theorem login_gate_spec_witness :
    (login (adminPassword none) "jacopo"
      { isAuthenticated := false, sessionFlag := false }).2 = true :=
  (login_gate_spec (adminPassword none) "jacopo"
    { isAuthenticated := false, sessionFlag := false }
    { isAuthenticated := true, sessionFlag := true }).1.mpr (by decide)

/-! ## The repository facade: remote writes and the fetch fallback chain

The remote side of `useFirebaseDB` is modelled by passing the outcome of
each Firestore call as a parameter (`Bool` for a write that may throw,
`Except Unit (Option (List String))` for the meta read: `error` a throw,
`ok none` a missing doc, `ok (some order)` the stored `contentOrder`).  The
attempted remote operations are returned as a trace. -/

/-- A remote operation attempted by the facade. -/
inductive RemoteOp where
  | putItem (id : String)
  | delItem (id : String)
  | getMeta
  | putMeta (order : List String)
deriving DecidableEq, Repr

/-- `saveItem` (useFirebaseDB.ts lines 181-211): the optimistic local update
is installed first; when configured, `setDoc` writes the item (a throw is
caught and reported as `false`); on success an inner `try` reads the meta
doc and, when the id is new, prepends it to the ledger — any failure there
(read throw or write throw, `metaWriteOk`) is swallowed by the inner
`catch`, so the call still returns `true`. -/
def saveItemF (configured : Bool) (item : ContentItem)
    (items : List ContentItem) (putOk : Bool)
    (metaRead : Except Unit (Option (List String))) (metaWriteOk : Bool) :
    List ContentItem × Bool × List RemoteOp :=
  (saveItemLocal item items,
    if configured then
      if putOk then
        match metaRead with
        | Except.error _ =>
            (true, [RemoteOp.putItem item.id, RemoteOp.getMeta])
        | Except.ok metaDoc =>
            let currentOrder := metaDoc.getD []
            if item.id ∈ currentOrder then
              (true, [RemoteOp.putItem item.id, RemoteOp.getMeta])
            else
              (true, [RemoteOp.putItem item.id, RemoteOp.getMeta,
                RemoteOp.putMeta (item.id :: currentOrder)])
      else (false, [RemoteOp.putItem item.id])
    else (true, []))

/-- `deleteItem` (lines 213-234): optimistic filter first; when configured,
`deleteDoc`, the meta read and the meta write all run inside one `try`, so
a throw in any of them makes the call return `false` (there is no inner
catch here, unlike `saveItem`). -/
def deleteItemF (configured : Bool) (id : String)
    (items : List ContentItem) (delOk : Bool)
    (metaRead : Except Unit (Option (List String))) (metaWriteOk : Bool) :
    List ContentItem × Bool :=
  (deleteItemLocal id items,
    if configured then
      if delOk then
        match metaRead with
        | Except.error _ => false
        | Except.ok none => true
        | Except.ok (some _) => if metaWriteOk then true else false
      else false
    else true)

/-- `saveSettings` (lines 236-248): set the state, then attempt the remote
write when configured. -/
def saveSettingsF (configured : Bool) (newSettings : SiteSettings)
    (writeOk : Bool) : SiteSettings × Bool :=
  (newSettings, if configured then writeOk else true)

/-- `saveMeta` (lines 250-261): remote write only. -/
def saveMetaF (configured : Bool) (writeOk : Bool) : Bool :=
  if configured then writeOk else true

/-- The fallback chain shared by the empty-result and unconfigured paths of
`fetchContent` (lines 105-145): `localStorage('cms_content')` if present,
else the bundled static files if any loaded, else `DEFAULT_CONTENT`. -/
def fetchFallback (cache : Option (List ContentItem))
    (staticItems : List ContentItem) : List ContentItem :=
  match cache with
  | some c => c
  | none =>
      if 0 < staticItems.length then staticItems else DEFAULT_CONTENT

/-- `fetchContent` (lines 61-153), restricted to the items it installs.
When configured, the whole Firestore read is `backend` (`error` = any
throw); a nonempty result is sorted by the ledger and installed; an empty
result falls through to the fallback chain.  The `catch` branch (lines
147-152) installs `DEFAULT_CONTENT` directly. -/
def fetchContentItems (configured : Bool)
    (backend : Except Unit (List ContentItem × List String))
    (cache : Option (List ContentItem)) (staticItems : List ContentItem) :
    List ContentItem :=
  if configured then
    match backend with
    | Except.error _ => DEFAULT_CONTENT
    | Except.ok (loaded, contentOrder) =>
        if 0 < loaded.length then sortByOrder contentOrder loaded
        else fetchFallback cache staticItems
  else fetchFallback cache staticItems

/-- C5 as stated is false on the code: when the backend read throws while a
local-cache copy is present, the catch branch installs the hard-coded
defaults without consulting the cache or the static files. -/
theorem fetch_fallback_error_counterexample :
    fetchContentItems true (Except.error ())
        (some [{ id := "99", type := ContentType.quote }]) []
      = DEFAULT_CONTENT
    ∧ fetchContentItems true (Except.error ())
        (some [{ id := "99", type := ContentType.quote }]) []
      ≠ [{ id := "99", type := ContentType.quote }] := by
  refine ⟨rfl, ?_⟩
  intro h
  have : DEFAULT_CONTENT = [{ id := "99", type := ContentType.quote }] := h
  have hlen := congrArg List.length this
  simp [DEFAULT_CONTENT] at hlen

/-- C5 (amended): on an *empty* backend result — and whenever the backend is
unconfigured — the facade falls back in the strict order local cache, then
bundled static files, then hard-coded defaults; but when the backend read
*throws*, the catch branch installs the hard-coded defaults directly,
skipping the cache and the static files. -/
theorem fetch_fallback_spec (configured : Bool) (order : List String)
    (cache : Option (List ContentItem)) (staticItems : List ContentItem)
    (c : List ContentItem) (e : Unit)
    (backend : Except Unit (List ContentItem × List String)) :
    (fetchContentItems configured (Except.ok ([], order)) (some c)
        staticItems = c)
    ∧ (0 < staticItems.length →
        fetchContentItems configured (Except.ok ([], order)) none
          staticItems = staticItems)
    ∧ (fetchContentItems configured (Except.ok ([], order)) none []
        = DEFAULT_CONTENT)
    ∧ (fetchContentItems true (Except.error e) cache staticItems
        = DEFAULT_CONTENT)
    ∧ (fetchContentItems false backend cache staticItems
        = fetchFallback cache staticItems) := by
  refine ⟨?_, ?_, ?_, rfl, rfl⟩
  · cases configured <;> rfl
  · intro hst
    have hf : fetchFallback none staticItems = staticItems := by
      rw [fetchFallback, if_pos hst]
    cases configured
    · exact hf
    · show fetchFallback none staticItems = staticItems
      exact hf
  · cases configured <;> rfl

/-- Concrete instance of the amended C5: empty backend result with no cache
and one loaded static item yields the static item. -/
theorem fetch_fallback_spec_witness :
    fetchContentItems true (Except.ok ([], []))
      none [{ id := "7", type := ContentType.poem }]
      = [{ id := "7", type := ContentType.poem }] :=
  (fetch_fallback_spec true [] none
    [{ id := "7", type := ContentType.poem }] [] ()
    (Except.ok ([], []))).2.1 (by decide)

/-- C6: every mutating facade operation applies its optimistic in-memory
update unconditionally — the local component of the result is
`saveItemLocal` / `deleteItemLocal` / the new settings for *every* remote
outcome, so a remote failure never rolls the local state back — and the
returned boolean reports the remote outcome: always `true` when
unconfigured, `true` when every remote step succeeds, `false` when the
primary write fails. -/
theorem optimistic_update_spec (configured : Bool) (item : ContentItem)
    (id : String) (items : List ContentItem) (st : SiteSettings)
    (putOk delOk wOk mwOk mwOk2 : Bool)
    (mr mr2 : Except Unit (Option (List String)))
    (md : Option (List String)) (ord : List String) :
    ((saveItemF configured item items putOk mr mwOk).1
        = saveItemLocal item items)
    ∧ ((deleteItemF configured id items delOk mr2 mwOk2).1
        = deleteItemLocal id items)
    ∧ ((saveSettingsF configured st wOk).1 = st)
    ∧ ((saveItemF true item items true mr mwOk).2.1 = true)
    ∧ ((saveItemF true item items false mr mwOk).2.1 = false)
    ∧ ((deleteItemF true id items false mr2 mwOk2).2 = false)
    ∧ ((deleteItemF true id items true (Except.ok (some ord)) true).2 = true)
    ∧ ((deleteItemF true id items true (Except.ok none) true).2 = true)
    ∧ ((saveSettingsF true st wOk).2 = wOk)
    ∧ ((saveItemF false item items putOk mr mwOk).2.1 = true)
    ∧ ((deleteItemF false id items delOk mr2 mwOk2).2 = true)
    ∧ ((saveSettingsF false st wOk).2 = true) := by
  refine ⟨rfl, rfl, rfl, ?_, rfl, rfl, rfl, rfl, rfl, rfl, rfl, rfl⟩
  rcases mr with _ | md2
  · rfl
  · show (if item.id ∈ md2.getD [] then _ else _ : Bool × List RemoteOp).1
        = true
    by_cases hmem : item.id ∈ md2.getD []
    · rw [if_pos hmem]
    · rw [if_neg hmem]

/-- C7: when the item write succeeds, `saveItem` returns `true` whatever
happens to the ordering-ledger update — in particular when the meta read
throws or the meta write fails — and the trace of attempted remote
operations contains the item write and never a compensating delete of it:
the ledger update is best-effort and a failure there neither changes the
reported outcome nor rolls back the written item. -/
theorem saveItem_meta_best_effort (item : ContentItem)
    (items : List ContentItem) (metaWriteOk : Bool)
    (mr : Except Unit (Option (List String))) :
    ((saveItemF true item items true mr metaWriteOk).2.1 = true)
    ∧ (RemoteOp.putItem item.id
        ∈ (saveItemF true item items true mr metaWriteOk).2.2)
    ∧ (∀ op ∈ (saveItemF true item items true mr metaWriteOk).2.2,
        op ≠ RemoteOp.delItem item.id) := by
  rcases mr with _ | md
  · refine ⟨rfl, by simp [saveItemF], ?_⟩
    intro op hop
    rcases List.mem_cons.mp hop with h | h
    · simp [h]
    · rcases List.mem_cons.mp h with h2 | h2
      · simp [h2]
      · simp at h2
  · by_cases hmem : item.id ∈ md.getD []
    · refine ⟨?_, ?_, ?_⟩
      · show (if item.id ∈ md.getD [] then _ else _ : Bool × List RemoteOp).1
            = true
        rw [if_pos hmem]
      · show RemoteOp.putItem item.id
            ∈ (if item.id ∈ md.getD [] then _ else _ : Bool × List RemoteOp).2
        rw [if_pos hmem]
        exact List.mem_cons_self _ _
      · intro op hop
        revert hop
        show op ∈ (if item.id ∈ md.getD [] then _ else _ :
            Bool × List RemoteOp).2 → op ≠ RemoteOp.delItem item.id
        rw [if_pos hmem]
        intro hop
        rcases List.mem_cons.mp hop with h | h
        · simp [h]
        · rcases List.mem_cons.mp h with h2 | h2
          · simp [h2]
          · simp at h2
    · refine ⟨?_, ?_, ?_⟩
      · show (if item.id ∈ md.getD [] then _ else _ : Bool × List RemoteOp).1
            = true
        rw [if_neg hmem]
      · show RemoteOp.putItem item.id
            ∈ (if item.id ∈ md.getD [] then _ else _ : Bool × List RemoteOp).2
        rw [if_neg hmem]
        exact List.mem_cons_self _ _
      · intro op hop
        revert hop
        show op ∈ (if item.id ∈ md.getD [] then _ else _ :
            Bool × List RemoteOp).2 → op ≠ RemoteOp.delItem item.id
        rw [if_neg hmem]
        intro hop
        rcases List.mem_cons.mp hop with h | h
        · simp [h]
        · rcases List.mem_cons.mp h with h2 | h2
          · simp [h2]
          · rcases List.mem_cons.mp h2 with h3 | h3
            · simp [h3]
            · simp at h3

/-- Concrete instance of C7: item write ok, meta read throwing — the call
reports success and the trace op `getMeta` is no rollback delete. -/
theorem saveItem_meta_best_effort_witness :
    ((saveItemF true { id := "9", type := ContentType.poem } [] true
        (Except.error ()) false).2.1 = true)
    ∧ RemoteOp.getMeta ≠ RemoteOp.delItem "9" :=
  ⟨(saveItem_meta_best_effort { id := "9", type := ContentType.poem } []
      false (Except.error ())).1,
   (saveItem_meta_best_effort { id := "9", type := ContentType.poem } []
      false (Except.error ())).2.2 RemoteOp.getMeta (by decide)⟩

/-- C9: in local-only mode (no backend configured) every facade operation
reports success, whatever its arguments and remote-outcome parameters. -/
theorem localOnly_operations_succeed (item : ContentItem) (id : String)
    (items : List ContentItem) (st : SiteSettings)
    (putOk delOk wOk wOk2 mwOk mwOk2 : Bool)
    (mr mr2 : Except Unit (Option (List String))) :
    (saveItemF false item items putOk mr mwOk).2.1 = true
    ∧ (deleteItemF false id items delOk mr2 mwOk2).2 = true
    ∧ (saveSettingsF false st wOk).2 = true
    ∧ saveMetaF false wOk2 = true :=
  ⟨rfl, rfl, rfl, rfl⟩

end PoetryCMS
